import Mathlib

/-!
# goleveldb: the DB write-path state controller (`leveldb/db_state.go`)

A shallow embedding of `db_state.go`: the sequence counter (`getSeq`, `addSeq`),
the memtable / journal rotation (`newMem`, `getMemNB`, `getMem`, `hasFrozenMem`,
`getFrozenMem`, `dropFrozenMem`) and the closed flag (`setClosed`, `isClosed`, `ok`).

Conventions of the embedding.

* Go pointers (`*memdb.DB`, `*journalWriter`) are addresses into two heaps kept in the
  `World`; `nil` is `none`.  Allocation appends a cell, so the address handed out is the
  current length of the heap.
* `uint64` / `uint32` fields are `Nat`, with an explicit `% 2 ^ 64` where the code adds.
* Every call the controller makes on a collaborator (session, storage, journal writer,
  table factory) is appended to `World.trace`, so "called exactly once" is a statement
  about that list.
* The embedding is sequential: each operation that takes `d.memMu` releases it before it
  returns, so the lock is free at every operation boundary and is not a field of the state.
* The session and the storage behind it are not part of `db_state.go`; their behaviour is
  a parameter (`Env`), over an arbitrary collaborator state `σ`.
-/

namespace Leveldb

/-- Number of values of a Go `uint64`. -/
def u64 : Nat := 2 ^ 64

/-- Go `error` values seen by this file: `errors.ErrClosed`, and whatever the storage
layer reports when a journal file cannot be created. -/
inductive Error where
  | ErrClosed
  | storage (code : Nat)
  deriving DecidableEq, Repr

/-- Address of a `memdb.DB` in the table heap. -/
abbrev TablePtr := Nat

/-- Address of a `journalWriter` in the journal heap. -/
abbrev JournalPtr := Nat

/-- A `storage.File` handle. -/
abbrev File := Nat

/-- A key comparator (`s.cmp`). -/
abbrev Comparer := Nat

/-- Modelled from the spec: the `memdb.DB` object built by `memdb.New`, which is not in
`db_state.go`.  The spec gives the factory as `newTable(comparator, capacityBytes) → table`
and the result as "a fresh, empty mutable table". -/
structure MemDB where
  cmp : Comparer
  capacity : Int
  entries : List (Nat × Nat)
  deriving DecidableEq, Repr

/-- Modelled from the spec: the `journalWriter` object, which is not in `db_state.go`:
the write-ahead log segment opened on one file. -/
structure JournalWriter where
  file : File
  deriving DecidableEq, Repr

/-- Calls made on collaborators, in program order. -/
inductive Event where
  | allocFileNum (num : Nat)
  | newJournalWriter (file : File)
  | reuseFileNum (num : Nat)
  | close (j : JournalPtr)
  | remove (j : JournalPtr)
  | memdbNew (cmp : Comparer) (capacity : Int)
  deriving DecidableEq, Repr

/-- The fields of `DB` that `db_state.go` reads or writes. -/
structure DB where
  seq : Nat
  frozenSeq : Nat
  mem : Option TablePtr
  frozenMem : Option TablePtr
  journal : Option JournalPtr
  frozenJournal : Option JournalPtr
  closed : Nat
  deriving DecidableEq, Repr

/-- The collaborators of `db_state.go`, as parameters over their own state `σ`:
the session methods `allocFileNum`, `reuseFileNum`, `getJournalFile`, the outcome of
creating the journal file (`none` for success), `s.cmp`, `s.o.GetWriteBuffer()` and the
constant `kWriteBufferPercent`. -/
structure Env (σ : Type) where
  allocFileNum : σ → Nat × σ
  reuseFileNum : σ → Nat → σ
  getJournalFile : σ → Nat → File
  createFile : σ → File → Option Error × σ
  cmp : σ → Comparer
  getWriteBuffer : σ → Int
  kWriteBufferPercent : Int

/-- The program state: the `DB` fields, the session `d.s`, the two heaps and the trace. -/
structure World (σ : Type) where
  d : DB
  s : σ
  tables : List MemDB
  journals : List JournalWriter
  trace : List Event

/-- Modelled from the spec: `toPercent`, which is not in `db_state.go`: "configured
capacity apportioned by a fixed percentage" (64KB at 50 percent is 32KB). -/
def toPercent (n percent : Int) : Int :=
  Int.tdiv (n * percent) 100

/-- Modelled from the spec: `memdb.New(cmp, capacity)`, which is not in `db_state.go`:
allocates "a fresh, empty mutable table" and returns its address. -/
def memdb.New {σ : Type} (cmp : Comparer) (capacity : Int) (w : World σ) :
    TablePtr × World σ :=
  (w.tables.length,
    { w with
      tables := w.tables ++ [{ cmp := cmp, capacity := capacity, entries := [] }]
      trace := w.trace ++ [Event.memdbNew cmp capacity] })

/-- Modelled from the spec: `newJournalWriter(file)`, which is not in `db_state.go`
(`openJournal(id) → (writer, error)`): creates the file; on failure returns a nil writer
and the error, on success allocates a writer on that file. -/
def newJournalWriter {σ : Type} (E : Env σ) (file : File) (w : World σ) :
    (Option JournalPtr × Option Error) × World σ :=
  let c := E.createFile w.s file
  let w1 : World σ := { w with s := c.2, trace := w.trace ++ [Event.newJournalWriter file] }
  match c.1 with
  | some err => ((none, some err), w1)
  | none => ((some w1.journals.length, none),
      { w1 with journals := w1.journals ++ [{ file := file }] })

/-- Modelled from the spec: `(*journalWriter).close()`, which is not in `db_state.go`;
only the call is recorded. -/
def journalWriter.close {σ : Type} (j : JournalPtr) (w : World σ) : World σ :=
  { w with trace := w.trace ++ [Event.close j] }

/-- Modelled from the spec: `(*journalWriter).remove()`, which is not in `db_state.go`
("instructs the storage collaborator to delete the frozen journal segment"); the receiver
is dereferenced, so a nil receiver has no result (`none`: the Go program panics). -/
def journalWriter.remove {σ : Type} (j : Option JournalPtr) (w : World σ) :
    Option (World σ) :=
  match j with
  | none => none
  | some p => some { w with trace := w.trace ++ [Event.remove p] }

/-! ## The operations of `db_state.go` -/

/-- `func (d *DB) getSeq() uint64`. -/
def getSeq {σ : Type} (w : World σ) : Nat :=
  w.d.seq

/-- `func (d *DB) addSeq(delta uint64)`: `atomic.AddUint64(&d.seq, delta)`. -/
def addSeq {σ : Type} (delta : Nat) (w : World σ) : World σ :=
  { w with d := { w.d with seq := (w.d.seq + delta) % u64 } }

/-- `func (d *DB) newMem() (mem *memdb.DB, err error)`. -/
def newMem {σ : Type} (E : Env σ) (w : World σ) :
    (Option TablePtr × Option Error) × World σ :=
  -- num := s.allocFileNum()
  let a := E.allocFileNum w.s
  let num := a.1
  let w1 : World σ := { w with s := a.2, trace := w.trace ++ [Event.allocFileNum num] }
  -- newJournal, err := newJournalWriter(s.getJournalFile(num))
  let r := newJournalWriter E (E.getJournalFile w1.s num) w1
  match r.1.2 with
  | some err =>
    -- s.reuseFileNum(num); return
    ((none, some err),
      { r.2 with s := E.reuseFileNum r.2.s num, trace := r.2.trace ++ [Event.reuseFileNum num] })
  | none =>
    let newJournal := r.1.1
    let w2 := r.2
    -- if d.journal != nil { d.journal.close(); d.frozenJournal = d.journal }
    let w3 : World σ :=
      match w2.d.journal with
      | some j =>
        let wc := journalWriter.close j w2
        { wc with d := { wc.d with frozenJournal := wc.d.journal } }
      | none => w2
    -- d.journal = newJournal
    let w4 : World σ := { w3 with d := { w3.d with journal := newJournal } }
    -- d.frozenMem = d.mem
    let w5 : World σ := { w4 with d := { w4.d with frozenMem := w4.d.mem } }
    -- mem = memdb.New(s.cmp, toPercent(d.s.o.GetWriteBuffer(), kWriteBufferPercent))
    let m := memdb.New (E.cmp w5.s) (toPercent (E.getWriteBuffer w5.s) E.kWriteBufferPercent) w5
    -- d.mem = mem
    let w6 : World σ := { m.2 with d := { m.2.d with mem := some m.1 } }
    -- d.frozenSeq = d.seq
    let w7 : World σ := { w6 with d := { w6.d with frozenSeq := w6.d.seq } }
    ((some m.1, none), w7)

/-- `func (d *DB) getMemNB() (mem, frozenMem *memdb.DB)`. -/
def getMemNB {σ : Type} (w : World σ) : Option TablePtr × Option TablePtr :=
  (w.d.mem, w.d.frozenMem)

/-- `func (d *DB) getMem() (mem, frozenMem *memdb.DB)`. -/
def getMem {σ : Type} (w : World σ) : Option TablePtr × Option TablePtr :=
  (w.d.mem, w.d.frozenMem)

/-- `func (d *DB) hasFrozenMem() bool`. -/
def hasFrozenMem {σ : Type} (w : World σ) : Bool :=
  w.d.frozenMem != none

/-- `func (d *DB) getFrozenMem() *memdb.DB`. -/
def getFrozenMem {σ : Type} (w : World σ) : Option TablePtr :=
  w.d.frozenMem

/-- `func (d *DB) dropFrozenMem()`; `none` when `d.frozenJournal.remove()` panics. -/
def dropFrozenMem {σ : Type} (w : World σ) : Option (World σ) :=
  -- d.frozenJournal.remove()
  match journalWriter.remove w.d.frozenJournal w with
  | none => none
  | some w1 =>
    -- d.frozenJournal = nil; d.frozenMem = nil
    let w2 : World σ := { w1 with d := { w1.d with frozenJournal := none } }
    some { w2 with d := { w2.d with frozenMem := none } }

/-- `func (d *DB) setClosed() bool`: `atomic.CompareAndSwapUint32(&d.closed, 0, 1)`. -/
def setClosed {σ : Type} (w : World σ) : Bool × World σ :=
  if w.d.closed = 0 then (true, { w with d := { w.d with closed := 1 } })
  else (false, w)

/-- `func (d *DB) isClosed() bool`: `atomic.LoadUint32(&d.closed) != 0`. -/
def isClosed {σ : Type} (w : World σ) : Bool :=
  w.d.closed != 0

/-- `func (d *DB) ok() error`; `none` is the nil error. -/
def ok {σ : Type} (w : World σ) : Option Error :=
  if isClosed w then some Error.ErrClosed else none

/-! ## Running operations in sequence -/

/-- The operations of `db_state.go`, with their arguments. -/
inductive Op where
  | getSeq
  | addSeq (delta : Nat)
  | newMem
  | getMemNB
  | getMem
  | hasFrozenMem
  | getFrozenMem
  | dropFrozenMem
  | setClosed
  | isClosed
  | ok
  deriving DecidableEq, Repr

/-- State after one operation, its return value dropped; `none` when the operation panics. -/
def step {σ : Type} (E : Env σ) (o : Op) (w : World σ) : Option (World σ) :=
  match o with
  | Op.getSeq => let _ := getSeq w; some w
  | Op.addSeq delta => some (addSeq delta w)
  | Op.newMem => some (newMem E w).2
  | Op.getMemNB => let _ := getMemNB w; some w
  | Op.getMem => let _ := getMem w; some w
  | Op.hasFrozenMem => let _ := hasFrozenMem w; some w
  | Op.getFrozenMem => let _ := getFrozenMem w; some w
  | Op.dropFrozenMem => dropFrozenMem w
  | Op.setClosed => some (setClosed w).2
  | Op.isClosed => let _ := isClosed w; some w
  | Op.ok => let _ := ok w; some w

/-- State after a list of operations, run left to right. -/
def run {σ : Type} (E : Env σ) : List Op → World σ → Option (World σ)
  | [], w => some w
  | o :: os, w =>
    match step E o w with
    | none => none
    | some w1 => run E os w1

/-- State after `addSeq d1, ..., addSeq dk`. -/
def addSeqs {σ : Type} : List Nat → World σ → World σ
  | [], w => w
  | delta :: ds, w => addSeqs ds (addSeq delta w)

/-- The `remove()` calls recorded in a trace, in order. -/
def removes : List Event → List JournalPtr
  | [] => []
  | Event.remove j :: t => j :: removes t
  | _ :: t => removes t

/-- The `close()` calls recorded in a trace, in order. -/
def closes : List Event → List JournalPtr
  | [] => []
  | Event.close j :: t => j :: closes t
  | _ :: t => closes t

/-- The `reuseFileNum` calls recorded in a trace, in order. -/
def reuses : List Event → List Nat
  | [] => []
  | Event.reuseFileNum n :: t => n :: reuses t
  | _ :: t => reuses t

/-- The file number `newMem` gets from `s.allocFileNum()` in state `w`. -/
def allocated {σ : Type} (E : Env σ) (w : World σ) : Nat :=
  (E.allocFileNum w.s).1

/-- The file `newMem` hands to `newJournalWriter` in state `w`. -/
def journalFile {σ : Type} (E : Env σ) (w : World σ) : File :=
  E.getJournalFile (E.allocFileNum w.s).2 (allocated E w)

/-- How creating that file turns out in state `w`: the error if any, and the session after. -/
def created {σ : Type} (E : Env σ) (w : World σ) : Option Error × σ :=
  E.createFile (E.allocFileNum w.s).2 (journalFile E w)

/-- A small concrete session for evaluating the operations: the state is the next file
number, and creating file `f` fails with `storage f` exactly when `fails f`. -/
def testEnv (fails : File → Bool) : Env Nat where
  allocFileNum := fun n => (n, n + 1)
  reuseFileNum := fun n num => if n = num + 1 then num else n
  getJournalFile := fun _ num => num
  createFile := fun n f => (if fails f then some (Error.storage f) else none, n)
  cmp := fun _ => 0
  getWriteBuffer := fun _ => 65536
  kWriteBufferPercent := 50

/-- A freshly opened database: table 0 is mutable, journal 0 is current, nothing frozen. -/
def testWorld : World Nat where
  d := { seq := 7, frozenSeq := 0, mem := some 0, frozenMem := none,
         journal := some 0, frozenJournal := none, closed := 0 }
  s := 1
  tables := [{ cmp := 0, capacity := 32768, entries := [] }]
  journals := [{ file := 0 }]
  trace := []

/-- The state in which `newMem` calls `newJournalWriter`: `s.allocFileNum()` has run. -/
def afterAlloc {σ : Type} (E : Env σ) (w : World σ) : World σ :=
  { w with s := (E.allocFileNum w.s).2, trace := w.trace ++ [Event.allocFileNum (allocated E w)] }

/-- The table `memdb.New` builds for `newMem` when the session is in state `s`. -/
def freshTable {σ : Type} (E : Env σ) (s : σ) : MemDB :=
  { cmp := E.cmp s, capacity := toPercent (E.getWriteBuffer s) E.kWriteBufferPercent,
    entries := [] }

/-- Caller discipline: `newMem` only while no frozen table is pending, `dropFrozenMem`
only while one is; the other operations at any time. -/
def allowed {σ : Type} (o : Op) (w : World σ) : Bool :=
  match o with
  | Op.newMem => !hasFrozenMem w
  | Op.dropFrozenMem => hasFrozenMem w
  | _ => true

/-- States reached from `w0` by operations that respect the caller discipline. -/
inductive Reachable {σ : Type} (E : Env σ) (w0 : World σ) : World σ → Prop where
  | init : Reachable E w0 w0
  | next (o : Op) (w w1 : World σ) :
      Reachable E w0 w → allowed o w = true → step E o w = some w1 → Reachable E w0 w1

/-- Every non-nil pointer held in `d` is the address of an allocated cell, as every
non-nil Go pointer is. -/
def Valid {σ : Type} (w : World σ) : Prop :=
  (∀ p : Nat, w.d.mem = some p → p < w.tables.length) ∧
  (∀ p : Nat, w.d.frozenMem = some p → p < w.tables.length) ∧
  (∀ j : Nat, w.d.journal = some j → j < w.journals.length) ∧
  (∀ j : Nat, w.d.frozenJournal = some j → j < w.journals.length)

/-- No aliasing between the two generations: the frozen table is not the mutable table
and the frozen journal is not the current journal. -/
def Distinct {σ : Type} (w : World σ) : Prop :=
  (∀ p : Nat, w.d.frozenMem = some p → w.d.mem ≠ some p) ∧
  (∀ j : Nat, w.d.frozenJournal = some j → w.d.journal ≠ some j)

/-- Whether `seq` stays at or below 2^64 - 1 in every `addSeq` of the run of `ops`
from `w`. -/
def seqFits {σ : Type} (E : Env σ) : List Op → World σ → Bool
  | [], _ => true
  | o :: os, w =>
    (match o with
      | Op.addSeq delta => decide (w.d.seq + delta < u64)
      | _ => true) &&
    (match step E o w with
      | none => true
      | some w1 => seqFits E os w1)

/-- A well-formed initial state: a mutable table and a current journal, nothing frozen,
every pointer allocated, and no `remove()` call made yet. -/
def Initial {σ : Type} (w : World σ) : Prop :=
  w.d.mem ≠ none ∧ w.d.journal ≠ none ∧ w.d.frozenMem = none ∧ w.d.frozenJournal = none ∧
  Valid w ∧ removes w.trace = []

/-- Journal `j` is exactly one of: the current journal, the frozen journal, a journal on
which `remove()` has been called. -/
def Tracked {σ : Type} (j : Nat) (w : World σ) : Prop :=
  (w.d.journal = some j ∧ w.d.frozenJournal ≠ some j ∧ j ∉ removes w.trace) ∨
  (w.d.journal ≠ some j ∧ w.d.frozenJournal = some j ∧ j ∉ removes w.trace) ∨
  (w.d.journal ≠ some j ∧ w.d.frozenJournal ≠ some j ∧ j ∈ removes w.trace)

/-- What the journal bookkeeping keeps true between operations. -/
def JournalInv {σ : Type} (w : World σ) : Prop :=
  Valid w ∧
  (w.d.mem ≠ none ∧ w.d.journal ≠ none ∧
    (w.d.frozenMem ≠ none ↔ w.d.frozenJournal ≠ none)) ∧
  (∀ j : Nat, w.d.frozenJournal = some j → w.d.journal ≠ some j) ∧
  (removes w.trace).Nodup ∧
  (∀ j : Nat, j ∈ removes w.trace →
    j < w.journals.length ∧ w.d.journal ≠ some j ∧ w.d.frozenJournal ≠ some j)

/-! ## Unfolding `newMem` -/

theorem newMem_of_created_none {σ : Type} (E : Env σ) (w : World σ)
    (h : (created E w).1 = none) :
    newMem E w =
      ((some w.tables.length, none),
        { d := { seq := w.d.seq, frozenSeq := w.d.seq, mem := some w.tables.length,
                 frozenMem := w.d.mem, journal := some w.journals.length,
                 frozenJournal :=
                   match w.d.journal with
                   | some j => some j
                   | none => w.d.frozenJournal,
                 closed := w.d.closed },
          s := (created E w).2,
          tables := w.tables ++
            [{ cmp := E.cmp (created E w).2,
               capacity := toPercent (E.getWriteBuffer (created E w).2) E.kWriteBufferPercent,
               entries := [] }],
          journals := w.journals ++ [{ file := journalFile E w }],
          trace := w.trace ++ [Event.allocFileNum (allocated E w)] ++
            [Event.newJournalWriter (journalFile E w)] ++
            (match w.d.journal with
             | some j => [Event.close j]
             | none => []) ++
            [Event.memdbNew (E.cmp (created E w).2)
              (toPercent (E.getWriteBuffer (created E w).2) E.kWriteBufferPercent)] }) := by
  unfold created journalFile allocated at h
  cases hj : w.d.journal <;>
    simp [newMem, newJournalWriter, memdb.New, journalWriter.close, created, journalFile,
      allocated, h, hj]

theorem newMem_of_created_some {σ : Type} (E : Env σ) (w : World σ) (e : Error)
    (h : (created E w).1 = some e) :
    newMem E w =
      ((none, some e),
        { w with
          s := E.reuseFileNum (created E w).2 (allocated E w)
          trace := w.trace ++ [Event.allocFileNum (allocated E w)] ++
            [Event.newJournalWriter (journalFile E w)] ++
            [Event.reuseFileNum (allocated E w)] }) := by
  unfold created journalFile allocated at h
  simp [newMem, newJournalWriter, created, journalFile, allocated, h]

theorem newMem_err_eq_created {σ : Type} (E : Env σ) (w : World σ) :
    (newMem E w).1.2 = (created E w).1 := by
  cases h : (created E w).1 with
  | none => rw [newMem_of_created_none E w h]
  | some e => rw [newMem_of_created_some E w e h]

theorem newJournalWriter_err {σ : Type} (E : Env σ) (w : World σ) :
    (newJournalWriter E (journalFile E w) (afterAlloc E w)).1.2 = (created E w).1 := by
  unfold newJournalWriter afterAlloc created
  cases h : (E.createFile (E.allocFileNum w.s).2 (journalFile E w)).1 <;> simp [h]

theorem step_dropFrozenMem_frozenSeq {σ : Type} (E : Env σ) (w w1 : World σ)
    (hstep : step E Op.dropFrozenMem w = some w1) :
    w1.d.frozenSeq = w.d.frozenSeq := by
  simp only [step, dropFrozenMem, journalWriter.remove] at hstep
  cases hfj : w.d.frozenJournal with
  | none => simp [hfj] at hstep
  | some fj =>
    simp only [hfj, Option.some.injEq] at hstep
    subst hstep
    rfl

theorem removes_append (a b : List Event) : removes (a ++ b) = removes a ++ removes b := by
  induction a with
  | nil => rfl
  | cons e t ih => cases e <;> simp [removes, ih]

theorem closes_append (a b : List Event) : closes (a ++ b) = closes a ++ closes b := by
  induction a with
  | nil => rfl
  | cons e t ih => cases e <;> simp [closes, ih]

theorem reuses_append (a b : List Event) : reuses (a ++ b) = reuses a ++ reuses b := by
  induction a with
  | nil => rfl
  | cons e t ih => cases e <;> simp [reuses, ih]

/-- Allocation never hands out an address already in use: `Valid` survives every
operation. -/
theorem valid_step {σ : Type} (E : Env σ) (o : Op) (w w1 : World σ)
    (hstep : step E o w = some w1) (hv : Valid w) : Valid w1 := by
  obtain ⟨hm, hfm, hj, hfj⟩ := hv
  cases o with
  | newMem =>
    simp only [step, Option.some.injEq] at hstep
    subst hstep
    cases hc : (created E w).1 with
    | some e => rw [newMem_of_created_some E w e hc]; exact ⟨hm, hfm, hj, hfj⟩
    | none =>
      rw [newMem_of_created_none E w hc]
      refine ⟨?_, ?_, ?_, ?_⟩
      · intro p hp
        simp only [Option.some.injEq] at hp
        subst hp
        simp only [List.length_append, List.length_singleton]
        omega
      · intro p hp
        have := hm p hp
        simp only [List.length_append, List.length_singleton]
        omega
      · intro j hj1
        simp only [Option.some.injEq] at hj1
        subst hj1
        simp only [List.length_append, List.length_singleton]
        omega
      · intro j hj1
        simp only [List.length_append, List.length_singleton]
        cases hcur : w.d.journal with
        | none =>
          simp only [hcur] at hj1
          have := hfj j hj1
          omega
        | some c =>
          simp only [hcur, Option.some.injEq] at hj1
          subst hj1
          have := hj c hcur
          omega
  | dropFrozenMem =>
    simp only [step, dropFrozenMem, journalWriter.remove] at hstep
    cases hcur : w.d.frozenJournal with
    | none => simp [hcur] at hstep
    | some fj =>
      simp only [hcur, Option.some.injEq] at hstep
      subst hstep
      exact ⟨hm, by simp, hj, by simp⟩
  | addSeq delta =>
    simp only [step, addSeq, Option.some.injEq] at hstep
    subst hstep
    exact ⟨hm, hfm, hj, hfj⟩
  | setClosed =>
    simp only [step, setClosed, Option.some.injEq] at hstep
    subst hstep
    split <;> exact ⟨hm, hfm, hj, hfj⟩
  | getSeq | getMemNB | getMem | hasFrozenMem | getFrozenMem | isClosed | ok =>
    simp only [step, Option.some.injEq] at hstep
    subst hstep
    exact ⟨hm, hfm, hj, hfj⟩

/-! ## Rotation: `newMem` -/

/-- C1: in a state whose `mem` is present (at an allocated address `m`), a `newMem()` that
returns a nil error leaves `hasFrozenMem()` true and `getFrozenMem()` equal to the old
`d.mem`; the returned table is the new `d.mem`, sits at an address that was not allocated
before the call, holds exactly the empty table `memdb.New` builds, and is not the frozen
table. -/
theorem newMem_freezes_mem {σ : Type} (E : Env σ) (w : World σ) (m : TablePtr)
    (hmem : w.d.mem = some m) (hvalid : m < w.tables.length)
    (hok : (newMem E w).1.2 = none) :
    hasFrozenMem (newMem E w).2 = true ∧
    getFrozenMem (newMem E w).2 = some m ∧
    (newMem E w).1.1 = (newMem E w).2.d.mem ∧
    (∃ p, (newMem E w).1.1 = some p ∧ w.tables[p]? = none ∧
      (newMem E w).2.tables[p]? = some (freshTable E (newMem E w).2.s)) ∧
    (newMem E w).1.1 ≠ getFrozenMem (newMem E w).2 := by
  rw [newMem_err_eq_created] at hok
  rw [newMem_of_created_none E w hok]
  refine ⟨by simp [hasFrozenMem, hmem], by simp [getFrozenMem, hmem], rfl,
    ⟨w.tables.length, rfl, by simp, by simp [freshTable]⟩, ?_⟩
  intro h
  simp only [getFrozenMem, hmem, Option.some.injEq] at h
  exact Nat.ne_of_gt hvalid h

/-- C1 at a concrete state: table 0 is frozen, table 1 is the fresh mutable table. -/
theorem newMem_freezes_mem_witness :
    testWorld.d.mem = some 0 ∧ 0 < testWorld.tables.length ∧
    (newMem (testEnv fun _ => false) testWorld).1.2 = none ∧
    (hasFrozenMem (newMem (testEnv fun _ => false) testWorld).2 = true ∧
    getFrozenMem (newMem (testEnv fun _ => false) testWorld).2 = some 0 ∧
    (newMem (testEnv fun _ => false) testWorld).1.1 =
      (newMem (testEnv fun _ => false) testWorld).2.d.mem ∧
    (∃ p, (newMem (testEnv fun _ => false) testWorld).1.1 = some p ∧
      testWorld.tables[p]? = none ∧
      (newMem (testEnv fun _ => false) testWorld).2.tables[p]? =
        some (freshTable (testEnv fun _ => false)
          (newMem (testEnv fun _ => false) testWorld).2.s)) ∧
    (newMem (testEnv fun _ => false) testWorld).1.1 ≠
      getFrozenMem (newMem (testEnv fun _ => false) testWorld).2) :=
  ⟨rfl, by decide, rfl,
    newMem_freezes_mem (testEnv fun _ => false) testWorld 0 rfl (by decide) rfl⟩

/-- C2: when `newJournalWriter` returns the error `e` inside `newMem()`, `newMem` returns
a nil table and that same `e`; no field of `d` changes (so `hasFrozenMem()` keeps its
value) and neither heap changes; the calls made are `allocFileNum`, `newJournalWriter`
and then `reuseFileNum`, once, with the number `allocFileNum` returned. -/
theorem newMem_failure_rolls_back {σ : Type} (E : Env σ) (w : World σ) (e : Error)
    (hfail : (newJournalWriter E (journalFile E w) (afterAlloc E w)).1.2 = some e) :
    (newMem E w).1 = (none, some e) ∧
    (newMem E w).2.d = w.d ∧
    hasFrozenMem (newMem E w).2 = hasFrozenMem w ∧
    (newMem E w).2.tables = w.tables ∧
    (newMem E w).2.journals = w.journals ∧
    (newMem E w).2.trace =
      w.trace ++ [Event.allocFileNum (allocated E w), Event.newJournalWriter (journalFile E w),
        Event.reuseFileNum (allocated E w)] ∧
    reuses (newMem E w).2.trace = reuses w.trace ++ [allocated E w] ∧
    (newMem E w).2.s = E.reuseFileNum (created E w).2 (allocated E w) := by
  rw [newJournalWriter_err] at hfail
  rw [newMem_of_created_some E w e hfail]
  simp [hasFrozenMem, reuses_append, reuses]

/-- C2 at a concrete state: creating the journal file fails with `storage 1`. -/
theorem newMem_failure_rolls_back_witness :
    (newJournalWriter (testEnv fun _ => true) (journalFile (testEnv fun _ => true) testWorld)
      (afterAlloc (testEnv fun _ => true) testWorld)).1.2 = some (Error.storage 1) ∧
    ((newMem (testEnv fun _ => true) testWorld).1 = (none, some (Error.storage 1)) ∧
    (newMem (testEnv fun _ => true) testWorld).2.d = testWorld.d ∧
    hasFrozenMem (newMem (testEnv fun _ => true) testWorld).2 = hasFrozenMem testWorld ∧
    (newMem (testEnv fun _ => true) testWorld).2.tables = testWorld.tables ∧
    (newMem (testEnv fun _ => true) testWorld).2.journals = testWorld.journals ∧
    (newMem (testEnv fun _ => true) testWorld).2.trace =
      testWorld.trace ++ [Event.allocFileNum (allocated (testEnv fun _ => true) testWorld),
        Event.newJournalWriter (journalFile (testEnv fun _ => true) testWorld),
        Event.reuseFileNum (allocated (testEnv fun _ => true) testWorld)] ∧
    reuses (newMem (testEnv fun _ => true) testWorld).2.trace =
      reuses testWorld.trace ++ [allocated (testEnv fun _ => true) testWorld] ∧
    (newMem (testEnv fun _ => true) testWorld).2.s =
      (testEnv fun _ => true).reuseFileNum (created (testEnv fun _ => true) testWorld).2
        (allocated (testEnv fun _ => true) testWorld)) :=
  ⟨rfl, newMem_failure_rolls_back (testEnv fun _ => true) testWorld (Error.storage 1) rfl⟩

/-- C3: a `newMem()` that returns a nil error leaves `getSeq()` unchanged, and afterwards
`d.frozenSeq` is the value `getSeq()` had when `newMem` was called. -/
theorem newMem_keeps_seq {σ : Type} (E : Env σ) (w : World σ)
    (hok : (newMem E w).1.2 = none) :
    getSeq (newMem E w).2 = getSeq w ∧ (newMem E w).2.d.frozenSeq = getSeq w := by
  rw [newMem_err_eq_created] at hok
  rw [newMem_of_created_none E w hok]
  simp [getSeq]

/-- C3 at a concrete state: the sequence number is 7 before and after, and so is the
boundary. -/
theorem newMem_keeps_seq_witness :
    (newMem (testEnv fun _ => false) testWorld).1.2 = none ∧
    (getSeq (newMem (testEnv fun _ => false) testWorld).2 = getSeq testWorld ∧
    (newMem (testEnv fun _ => false) testWorld).2.d.frozenSeq = getSeq testWorld) :=
  ⟨rfl, newMem_keeps_seq (testEnv fun _ => false) testWorld rfl⟩

/-- C4: with a current `journal` (in particular in a state with `mem` and `journal` present
and no frozen table), a `newMem()` that returns a nil error followed by `dropFrozenMem()`
does not panic and ends in a state where `hasFrozenMem()` is false and `frozenJournal` is
nil; over the two calls `remove()` was called once, on the journal that was current before
the rotation; `d.mem` and `d.journal` are still the table `newMem` returned and the journal
it opened. -/
theorem newMem_then_dropFrozenMem {σ : Type} (E : Env σ) (w : World σ) (j : JournalPtr)
    (hjournal : w.d.journal = some j)
    (hok : (newMem E w).1.2 = none) :
    ∃ w2, dropFrozenMem (newMem E w).2 = some w2 ∧
      hasFrozenMem w2 = false ∧
      w2.d.frozenJournal = none ∧
      removes w2.trace = removes w.trace ++ [j] ∧
      w2.d.mem = (newMem E w).1.1 ∧
      w2.d.mem = (newMem E w).2.d.mem ∧
      w2.d.journal = (newMem E w).2.d.journal ∧
      w2.d.journal = some w.journals.length ∧
      w2.journals[w.journals.length]? = some { file := journalFile E w } := by
  rw [newMem_err_eq_created] at hok
  rw [newMem_of_created_none E w hok]
  simp [dropFrozenMem, journalWriter.remove, hjournal, hasFrozenMem, removes_append, removes]

/-- C4 at a concrete state: journal 0 is removed once, table 1 and journal 1 stay
installed. -/
theorem newMem_then_dropFrozenMem_witness :
    testWorld.d.mem = some 0 ∧ testWorld.d.journal = some 0 ∧
    testWorld.d.frozenMem = none ∧
    (newMem (testEnv fun _ => false) testWorld).1.2 = none ∧
    ∃ w2, dropFrozenMem (newMem (testEnv fun _ => false) testWorld).2 = some w2 ∧
      hasFrozenMem w2 = false ∧
      w2.d.frozenJournal = none ∧
      removes w2.trace = removes testWorld.trace ++ [0] ∧
      w2.d.mem = (newMem (testEnv fun _ => false) testWorld).1.1 ∧
      w2.d.mem = (newMem (testEnv fun _ => false) testWorld).2.d.mem ∧
      w2.d.journal = (newMem (testEnv fun _ => false) testWorld).2.d.journal ∧
      w2.d.journal = some testWorld.journals.length ∧
      w2.journals[testWorld.journals.length]? =
        some { file := journalFile (testEnv fun _ => false) testWorld } :=
  ⟨rfl, rfl, rfl, rfl,
    newMem_then_dropFrozenMem (testEnv fun _ => false) testWorld 0 rfl rfl⟩

/-! ## The frozen table and the frozen journal go together -/

/-- What the rotation keeps true between operations: a mutable table and a current journal
exist, and the frozen table is present exactly when the frozen journal is. -/
theorem paired_step {σ : Type} (E : Env σ) (o : Op) (w w1 : World σ)
    (hstep : step E o w = some w1)
    (hinv : w.d.mem ≠ none ∧ w.d.journal ≠ none ∧
      (w.d.frozenMem ≠ none ↔ w.d.frozenJournal ≠ none)) :
    w1.d.mem ≠ none ∧ w1.d.journal ≠ none ∧
      (w1.d.frozenMem ≠ none ↔ w1.d.frozenJournal ≠ none) := by
  obtain ⟨hm, hj, hf⟩ := hinv
  cases o with
  | newMem =>
    simp only [step, Option.some.injEq] at hstep
    subst hstep
    cases hc : (created E w).1 with
    | some e => rw [newMem_of_created_some E w e hc]; exact ⟨hm, hj, hf⟩
    | none =>
      rw [newMem_of_created_none E w hc]
      obtain ⟨j, hj1⟩ := Option.ne_none_iff_exists'.mp hj
      simp [hj1, hm]
  | dropFrozenMem =>
    simp only [step, dropFrozenMem, journalWriter.remove] at hstep
    cases hfj : w.d.frozenJournal with
    | none => simp [hfj] at hstep
    | some fj =>
      simp only [hfj, Option.some.injEq] at hstep
      subst hstep
      simp [hm, hj]
  | addSeq delta =>
    simp only [step, addSeq, Option.some.injEq] at hstep
    subst hstep
    exact ⟨hm, hj, hf⟩
  | setClosed =>
    simp only [step, setClosed, Option.some.injEq] at hstep
    subst hstep
    split <;> exact ⟨hm, hj, hf⟩
  | getSeq | getMemNB | getMem | hasFrozenMem | getFrozenMem | isClosed | ok =>
    simp only [step, Option.some.injEq] at hstep
    subst hstep
    exact ⟨hm, hj, hf⟩

/-- C5: start with a mutable table and a current journal and neither frozen table nor
frozen journal; after any sequence of operations in which `newMem()` (successful or
failed) is called only while no frozen table is pending and `dropFrozenMem()` only while
one is, `d.frozenMem` is non-nil if and only if `d.frozenJournal` is non-nil. -/
theorem frozenMem_iff_frozenJournal {σ : Type} (E : Env σ) (w0 w : World σ)
    (hmem : w0.d.mem ≠ none) (hjournal : w0.d.journal ≠ none)
    (hfm : w0.d.frozenMem = none) (hfj : w0.d.frozenJournal = none)
    (hreach : Reachable E w0 w) :
    w.d.frozenMem ≠ none ↔ w.d.frozenJournal ≠ none := by
  have key : w.d.mem ≠ none ∧ w.d.journal ≠ none ∧
      (w.d.frozenMem ≠ none ↔ w.d.frozenJournal ≠ none) := by
    induction hreach with
    | init => exact ⟨hmem, hjournal, by simp [hfm, hfj]⟩
    | next o u u1 _ _ hstep ih => exact paired_step E o u u1 hstep ih
  exact key.2.2

/-- C5 on a concrete run: a successful rotation followed by a release. -/
theorem frozenMem_iff_frozenJournal_witness :
    testWorld.d.mem ≠ none ∧ testWorld.d.journal ≠ none ∧
    testWorld.d.frozenMem = none ∧ testWorld.d.frozenJournal = none ∧
    Reachable (testEnv fun _ => false) testWorld
      (newMem (testEnv fun _ => false) testWorld).2 ∧
    ((newMem (testEnv fun _ => false) testWorld).2.d.frozenMem ≠ none ↔
      (newMem (testEnv fun _ => false) testWorld).2.d.frozenJournal ≠ none) :=
  have hr : Reachable (testEnv fun _ => false) testWorld
      (newMem (testEnv fun _ => false) testWorld).2 :=
    Reachable.next Op.newMem testWorld _ Reachable.init rfl rfl
  ⟨by decide, by decide, rfl, rfl, hr,
    frozenMem_iff_frozenJournal (testEnv fun _ => false) testWorld _
      (by decide) (by decide) rfl rfl hr⟩

/-! ## Which calls reach `close()` and `remove()` -/

theorem newMem_removes {σ : Type} (E : Env σ) (w : World σ) :
    removes (newMem E w).2.trace = removes w.trace := by
  cases hc : (created E w).1 with
  | some e =>
    rw [newMem_of_created_some E w e hc]
    simp [removes_append, removes]
  | none =>
    rw [newMem_of_created_none E w hc]
    cases hj : w.d.journal <;> simp [removes_append, removes]

/-- C6: with a current journal `j`, a `newMem()` that returns a nil error calls `close()`
once, on `j`, calls `remove()` on nothing, stores `j` as `d.frozenJournal` and installs
the journal it has just opened (a new address, on the file it asked for) as `d.journal`.
No operation other than `dropFrozenMem()` adds a `remove()` call, and `dropFrozenMem()`
adds one, on the frozen journal. -/
theorem newMem_defers_remove {σ : Type} (E : Env σ) (w : World σ) (j : JournalPtr)
    (hjournal : w.d.journal = some j)
    (hok : (newMem E w).1.2 = none) :
    closes (newMem E w).2.trace = closes w.trace ++ [j] ∧
    removes (newMem E w).2.trace = removes w.trace ∧
    (newMem E w).2.d.frozenJournal = some j ∧
    (newMem E w).2.d.journal = some w.journals.length ∧
    w.journals[w.journals.length]? = none ∧
    (newMem E w).2.journals[w.journals.length]? = some { file := journalFile E w } ∧
    (∀ (o : Op) (u u1 : World σ), o ≠ Op.dropFrozenMem → step E o u = some u1 →
      removes u1.trace = removes u.trace) ∧
    (∀ u u1 : World σ, step E Op.dropFrozenMem u = some u1 →
      ∃ fj, u.d.frozenJournal = some fj ∧ removes u1.trace = removes u.trace ++ [fj]) := by
  refine ⟨?_, newMem_removes E w, ?_, ?_, by simp, ?_, ?_, ?_⟩
  · rw [newMem_err_eq_created] at hok
    rw [newMem_of_created_none E w hok]
    simp [hjournal, closes_append, closes]
  · rw [newMem_err_eq_created] at hok
    rw [newMem_of_created_none E w hok]
    simp [hjournal]
  · rw [newMem_err_eq_created] at hok
    rw [newMem_of_created_none E w hok]
  · rw [newMem_err_eq_created] at hok
    rw [newMem_of_created_none E w hok]
    simp
  · intro o u u1 ho hstep
    cases o with
    | dropFrozenMem => exact absurd rfl ho
    | newMem =>
      simp only [step, Option.some.injEq] at hstep
      subst hstep
      exact newMem_removes E u
    | addSeq delta =>
      simp only [step, addSeq, Option.some.injEq] at hstep
      subst hstep
      rfl
    | setClosed =>
      simp only [step, setClosed, Option.some.injEq] at hstep
      subst hstep
      split <;> rfl
    | getSeq | getMemNB | getMem | hasFrozenMem | getFrozenMem | isClosed | ok =>
      simp only [step, Option.some.injEq] at hstep
      subst hstep
      rfl
  · intro u u1 hstep
    simp only [step, dropFrozenMem, journalWriter.remove] at hstep
    cases hfj : u.d.frozenJournal with
    | none => simp [hfj] at hstep
    | some fj =>
      simp only [hfj, Option.some.injEq] at hstep
      subst hstep
      exact ⟨fj, rfl, by simp [removes_append, removes]⟩

/-- C6 at a concrete state: journal 0 is closed and kept, journal 1 becomes current. -/
theorem newMem_defers_remove_witness :
    testWorld.d.journal = some 0 ∧
    (newMem (testEnv fun _ => false) testWorld).1.2 = none ∧
    (closes (newMem (testEnv fun _ => false) testWorld).2.trace =
      closes testWorld.trace ++ [0] ∧
    removes (newMem (testEnv fun _ => false) testWorld).2.trace = removes testWorld.trace ∧
    (newMem (testEnv fun _ => false) testWorld).2.d.frozenJournal = some 0 ∧
    (newMem (testEnv fun _ => false) testWorld).2.d.journal =
      some testWorld.journals.length ∧
    testWorld.journals[testWorld.journals.length]? = none ∧
    (newMem (testEnv fun _ => false) testWorld).2.journals[testWorld.journals.length]? =
      some { file := journalFile (testEnv fun _ => false) testWorld } ∧
    (∀ (o : Op) (u u1 : World Nat), o ≠ Op.dropFrozenMem →
      step (testEnv fun _ => false) o u = some u1 → removes u1.trace = removes u.trace) ∧
    (∀ u u1 : World Nat, step (testEnv fun _ => false) Op.dropFrozenMem u = some u1 →
      ∃ fj, u.d.frozenJournal = some fj ∧ removes u1.trace = removes u.trace ++ [fj])) ∧
    (Op.newMem ≠ Op.dropFrozenMem ∧
      step (testEnv fun _ => false) Op.newMem testWorld =
        some (newMem (testEnv fun _ => false) testWorld).2 ∧
      removes (newMem (testEnv fun _ => false) testWorld).2.trace = removes testWorld.trace) :=
  ⟨rfl, rfl, newMem_defers_remove (testEnv fun _ => false) testWorld 0 rfl rfl,
    by decide, rfl,
    (newMem_defers_remove (testEnv fun _ => false) testWorld 0 rfl rfl).2.2.2.2.2.2.1
      Op.newMem testWorld _ (by decide) rfl⟩

/-! ## The closed flag -/

theorem newMem_closed {σ : Type} (E : Env σ) (w : World σ) :
    (newMem E w).2.d.closed = w.d.closed := by
  cases hc : (created E w).1 with
  | some e => rw [newMem_of_created_some E w e hc]
  | none => rw [newMem_of_created_none E w hc]

theorem step_closed_of_ne {σ : Type} (E : Env σ) (o : Op) (w w1 : World σ)
    (ho : o ≠ Op.setClosed) (hstep : step E o w = some w1) :
    w1.d.closed = w.d.closed := by
  cases o with
  | setClosed => exact absurd rfl ho
  | newMem =>
    simp only [step, Option.some.injEq] at hstep
    subst hstep
    exact newMem_closed E w
  | dropFrozenMem =>
    simp only [step, dropFrozenMem, journalWriter.remove] at hstep
    cases hfj : w.d.frozenJournal with
    | none => simp [hfj] at hstep
    | some fj =>
      simp only [hfj, Option.some.injEq] at hstep
      subst hstep
      rfl
  | addSeq delta =>
    simp only [step, addSeq, Option.some.injEq] at hstep
    subst hstep
    rfl
  | getSeq | getMemNB | getMem | hasFrozenMem | getFrozenMem | isClosed | ok =>
    simp only [step, Option.some.injEq] at hstep
    subst hstep
    rfl

theorem isClosed_setClosed {σ : Type} (w : World σ) : isClosed (setClosed w).2 = true := by
  unfold setClosed isClosed
  split
  · rfl
  · rename_i h
    simpa using h

theorem step_isClosed {σ : Type} (E : Env σ) (o : Op) (w w1 : World σ)
    (hstep : step E o w = some w1) (hclosed : isClosed w = true) :
    isClosed w1 = true := by
  by_cases ho : o = Op.setClosed
  · subst ho
    simp only [step, Option.some.injEq] at hstep
    subst hstep
    exact isClosed_setClosed w
  · have h := step_closed_of_ne E o w w1 ho hstep
    unfold isClosed at hclosed ⊢
    rw [h]
    exact hclosed

theorem run_isClosed {σ : Type} (E : Env σ) (ops : List Op) (w w1 : World σ)
    (hrun : run E ops w = some w1) (hclosed : isClosed w = true) :
    isClosed w1 = true := by
  induction ops generalizing w with
  | nil =>
    simp only [run, Option.some.injEq] at hrun
    subst hrun
    exact hclosed
  | cons o os ih =>
    simp only [run] at hrun
    cases hs : step E o w with
    | none => simp [hs] at hrun
    | some u =>
      simp only [hs] at hrun
      exact ih u hrun (step_isClosed E o w u hs hclosed)

theorem run_open {σ : Type} (E : Env σ) (ops : List Op) (w w1 : World σ)
    (hops : Op.setClosed ∉ ops) (hrun : run E ops w = some w1) :
    w1.d.closed = w.d.closed := by
  induction ops generalizing w with
  | nil =>
    simp only [run, Option.some.injEq] at hrun
    subst hrun
    rfl
  | cons o os ih =>
    simp only [run] at hrun
    cases hs : step E o w with
    | none => simp [hs] at hrun
    | some u =>
      simp only [hs] at hrun
      have ho : o ≠ Op.setClosed := fun h => hops (h ▸ List.mem_cons_self _ _)
      have hos : Op.setClosed ∉ os := fun h => hops (List.mem_cons_of_mem _ h)
      rw [ih u hos hrun, step_closed_of_ne E o w u ho hs]

theorem run_after_setClosed {σ : Type} (E : Env σ) (ops1 ops2 : List Op) (w w1 : World σ)
    (hrun : run E (ops1 ++ Op.setClosed :: ops2) w = some w1) :
    isClosed w1 = true := by
  induction ops1 generalizing w with
  | nil =>
    simp only [List.nil_append, run, step] at hrun
    exact run_isClosed E ops2 _ w1 hrun (isClosed_setClosed w)
  | cons o os ih =>
    simp only [List.cons_append, run] at hrun
    cases hs : step E o w with
    | none => simp [hs] at hrun
    | some u =>
      simp only [hs] at hrun
      exact ih u hrun

/-- C7: from an open DB (`closed == 0`), the first `setClosed()` returns true and the
second returns false, and `isClosed()` is true after the first and after the second; in
any state, `setClosed()` returns true if and only if the flag was 0 before the call. -/
theorem setClosed_twice {σ : Type} (w : World σ) (hopen : w.d.closed = 0) :
    (setClosed w).1 = true ∧
    (setClosed (setClosed w).2).1 = false ∧
    isClosed (setClosed w).2 = true ∧
    isClosed (setClosed (setClosed w).2).2 = true ∧
    (∀ u : World σ, (setClosed u).1 = true ↔ u.d.closed = 0) := by
  refine ⟨by simp [setClosed, hopen], by simp [setClosed, hopen],
    isClosed_setClosed w, isClosed_setClosed _, ?_⟩
  intro u
  unfold setClosed
  split <;> simp [*]

/-- C7 at a concrete state. -/
theorem setClosed_twice_witness :
    testWorld.d.closed = 0 ∧
    ((setClosed testWorld).1 = true ∧
    (setClosed (setClosed testWorld).2).1 = false ∧
    isClosed (setClosed testWorld).2 = true ∧
    isClosed (setClosed (setClosed testWorld).2).2 = true ∧
    (∀ u : World Nat, (setClosed u).1 = true ↔ u.d.closed = 0)) :=
  ⟨rfl, setClosed_twice testWorld rfl⟩

/-- C8: `ok()` returns `ErrClosed` exactly when `isClosed()` is true and nil exactly when
it is false.  From an open DB (`closed == 0`), `ok()` is nil after any operations among
which there is no `setClosed()`; and from any state, `ok()` is `ErrClosed` after any
operations among which there is a `setClosed()`. -/
theorem ok_iff_isClosed {σ : Type} (E : Env σ) (w0 : World σ) (hopen : w0.d.closed = 0) :
    (∀ w : World σ, ok w = some Error.ErrClosed ↔ isClosed w = true) ∧
    (∀ w : World σ, ok w = none ↔ isClosed w = false) ∧
    (∀ (ops : List Op) (w : World σ), Op.setClosed ∉ ops → run E ops w0 = some w →
      ok w = none) ∧
    (∀ (ops1 ops2 : List Op) (u w : World σ),
      run E (ops1 ++ Op.setClosed :: ops2) u = some w → ok w = some Error.ErrClosed) := by
  refine ⟨?_, ?_, ?_, ?_⟩
  · intro w
    unfold ok
    cases isClosed w <;> simp
  · intro w
    unfold ok
    cases isClosed w <;> simp
  · intro ops w hops hrun
    have h := run_open E ops w0 w hops hrun
    simp [ok, isClosed, h, hopen]
  · intro ops1 ops2 u w hrun
    simp [ok, run_after_setClosed E ops1 ops2 u w hrun]

/-- C8 at a concrete state. -/
theorem ok_iff_isClosed_witness :
    testWorld.d.closed = 0 ∧
    ((∀ w : World Nat, ok w = some Error.ErrClosed ↔ isClosed w = true) ∧
    (∀ w : World Nat, ok w = none ↔ isClosed w = false) ∧
    (∀ (ops : List Op) (w : World Nat), Op.setClosed ∉ ops →
      run (testEnv fun _ => false) ops testWorld = some w → ok w = none) ∧
    (∀ (ops1 ops2 : List Op) (u w : World Nat),
      run (testEnv fun _ => false) (ops1 ++ Op.setClosed :: ops2) u = some w →
      ok w = some Error.ErrClosed)) ∧
    (Op.setClosed ∉ [Op.newMem, Op.addSeq 3, Op.dropFrozenMem] ∧
      ∃ w, run (testEnv fun _ => false) [Op.newMem, Op.addSeq 3, Op.dropFrozenMem] testWorld
          = some w ∧ ok w = none) ∧
    (∃ w, run (testEnv fun _ => false) ([Op.newMem] ++ Op.setClosed :: [Op.dropFrozenMem])
        testWorld = some w ∧ ok w = some Error.ErrClosed) :=
  ⟨rfl, ok_iff_isClosed (testEnv fun _ => false) testWorld rfl,
    ⟨by decide, _, rfl,
      (ok_iff_isClosed (testEnv fun _ => false) testWorld rfl).2.2.1
        [Op.newMem, Op.addSeq 3, Op.dropFrozenMem] _ (by decide) rfl⟩,
    ⟨_, rfl,
      (ok_iff_isClosed (testEnv fun _ => false) testWorld rfl).2.2.2
        [Op.newMem] [Op.dropFrozenMem] testWorld _ rfl⟩⟩

/-- C9: once `isClosed()` is true it is true after any sequence of the operations
`getSeq`, `addSeq`, `newMem`, `getMemNB`, `getMem`, `hasFrozenMem`, `getFrozenMem`,
`dropFrozenMem`, `setClosed`, `isClosed`, `ok`. -/
theorem closed_is_latch {σ : Type} (E : Env σ) (ops : List Op) (w w1 : World σ)
    (hclosed : isClosed w = true) (hrun : run E ops w = some w1) :
    isClosed w1 = true :=
  run_isClosed E ops w w1 hrun hclosed

/-- C9 on a concrete run: close, then rotate, advance the sequence and release. -/
theorem closed_is_latch_witness :
    isClosed (setClosed testWorld).2 = true ∧
    (∃ w1, run (testEnv fun _ => false)
        [Op.newMem, Op.addSeq 3, Op.dropFrozenMem, Op.setClosed, Op.ok]
        (setClosed testWorld).2 = some w1 ∧ isClosed w1 = true) :=
  ⟨rfl, _, rfl,
    closed_is_latch (testEnv fun _ => false)
      [Op.newMem, Op.addSeq 3, Op.dropFrozenMem, Op.setClosed, Op.ok]
      (setClosed testWorld).2 _ rfl rfl⟩

/-! ## The sequence counter -/

theorem u64_pos : 0 < u64 := by
  unfold u64
  positivity

theorem addSeqs_seq_mod {σ : Type} (ds : List Nat) (w : World σ) :
    (addSeqs ds w).d.seq % u64 = (w.d.seq + ds.sum) % u64 := by
  induction ds generalizing w with
  | nil => simp [addSeqs]
  | cons delta ds ih =>
    simp only [addSeqs, List.sum_cons]
    rw [ih (addSeq delta w)]
    simp only [addSeq]
    rw [Nat.mod_add_mod, Nat.add_assoc]

theorem addSeqs_seq_lt {σ : Type} (ds : List Nat) (w : World σ) (h : w.d.seq < u64) :
    (addSeqs ds w).d.seq < u64 := by
  induction ds generalizing w with
  | nil => exact h
  | cons delta ds ih =>
    simp only [addSeqs]
    exact ih (addSeq delta w) (Nat.mod_lt _ u64_pos)

theorem getSeq_addSeqs_eq {σ : Type} (ds : List Nat) (w : World σ) (h : w.d.seq < u64) :
    getSeq (addSeqs ds w) = (getSeq w + ds.sum) % u64 := by
  unfold getSeq
  rw [← addSeqs_seq_mod ds w, Nat.mod_eq_of_lt (addSeqs_seq_lt ds w h)]

/-- C10: for a `uint64` start value and any deltas `d1..dk`, after `addSeq(d1)`, ...,
`addSeq(dk)` the value `getSeq()` returns is the start value plus `d1 + ... + dk`, modulo
2^64; and while the running sum stays at or below 2^64 - 1, a later `getSeq()` is never
smaller than an earlier one. -/
theorem getSeq_addSeqs {σ : Type} (w : World σ) (hseq : w.d.seq < u64) :
    (∀ ds : List Nat, getSeq (addSeqs ds w) = (getSeq w + ds.sum) % u64) ∧
    (∀ ds1 ds2 : List Nat, getSeq w + (ds1 ++ ds2).sum ≤ u64 - 1 →
      getSeq (addSeqs ds1 w) ≤ getSeq (addSeqs (ds1 ++ ds2) w)) := by
  refine ⟨fun ds => getSeq_addSeqs_eq ds w hseq, ?_⟩
  intro ds1 ds2 hsum
  rw [getSeq_addSeqs_eq ds1 w hseq, getSeq_addSeqs_eq (ds1 ++ ds2) w hseq]
  rw [List.sum_append] at hsum ⊢
  have hpos := u64_pos
  rw [Nat.mod_eq_of_lt (by omega), Nat.mod_eq_of_lt (by omega)]
  omega

/-- C10 at a concrete state: the counter starts at 7. -/
theorem getSeq_addSeqs_witness :
    testWorld.d.seq < u64 ∧
    ((∀ ds : List Nat, getSeq (addSeqs ds testWorld) = (getSeq testWorld + ds.sum) % u64) ∧
    (∀ ds1 ds2 : List Nat, getSeq testWorld + (ds1 ++ ds2).sum ≤ u64 - 1 →
      getSeq (addSeqs ds1 testWorld) ≤ getSeq (addSeqs (ds1 ++ ds2) testWorld))) ∧
    (getSeq testWorld + ([1, 2] ++ [3]).sum ≤ u64 - 1 ∧
      getSeq (addSeqs [1, 2] testWorld) ≤ getSeq (addSeqs ([1, 2] ++ [3]) testWorld)) :=
  ⟨by decide, getSeq_addSeqs testWorld (by decide), by decide,
    (getSeq_addSeqs testWorld (by decide)).2 [1, 2] [3] (by decide)⟩

/-! ## The frozen-sequence boundary after `dropFrozenMem` -/

/-- C11, as stated, fails: at the test state the rotation records the boundary 7, and
after `dropFrozenMem()` the frozen table and the frozen journal are nil while
`d.frozenSeq` is still 7. -/
theorem dropFrozenMem_frozenSeq_counterexample :
    (newMem (testEnv fun _ => false) testWorld).1.2 = none ∧
    hasFrozenMem (newMem (testEnv fun _ => false) testWorld).2 = true ∧
    (newMem (testEnv fun _ => false) testWorld).2.d.frozenSeq = 7 ∧
    ∃ w2, dropFrozenMem (newMem (testEnv fun _ => false) testWorld).2 = some w2 ∧
      w2.d.frozenMem = none ∧ w2.d.frozenJournal = none ∧ w2.d.frozenSeq = 7 :=
  ⟨rfl, rfl, rfl, _, rfl, rfl, rfl, rfl⟩

/-- C11, amended: `dropFrozenMem()` on a state with a pending frozen table resets
`d.frozenMem` and `d.frozenJournal` to nil and leaves `d.frozenSeq` as it was, so it
still holds the boundary the preceding `newMem()` recorded. -/
theorem dropFrozenMem_keeps_frozenSeq {σ : Type} (w w1 : World σ)
    (hdrop : dropFrozenMem w = some w1) :
    w1.d.frozenMem = none ∧ w1.d.frozenJournal = none ∧
    w1.d.frozenSeq = w.d.frozenSeq := by
  simp only [dropFrozenMem, journalWriter.remove] at hdrop
  cases hfj : w.d.frozenJournal with
  | none => simp [hfj] at hdrop
  | some fj =>
    simp only [hfj, Option.some.injEq] at hdrop
    subst hdrop
    exact ⟨rfl, rfl, rfl⟩

/-- C11, amended, on the state a successful rotation of the test state leaves. -/
theorem dropFrozenMem_keeps_frozenSeq_witness :
    ∃ w1, dropFrozenMem (newMem (testEnv fun _ => false) testWorld).2 = some w1 ∧
      (w1.d.frozenMem = none ∧ w1.d.frozenJournal = none ∧
      w1.d.frozenSeq = (newMem (testEnv fun _ => false) testWorld).2.d.frozenSeq) :=
  ⟨_, rfl, dropFrozenMem_keeps_frozenSeq (newMem (testEnv fun _ => false) testWorld).2 _ rfl⟩

/-! ## The capacity of the new table -/

/-- C12: the table a `newMem()` with a nil error returns has the session comparator and
the capacity `toPercent(GetWriteBuffer(), kWriteBufferPercent)`, and the last call
`newMem` made is `memdb.New` with those two arguments; with a write buffer of 64KB and a
percentage of 50 the capacity is 32KB. -/
theorem newMem_table_capacity {σ : Type} (E : Env σ) (w : World σ)
    (hok : (newMem E w).1.2 = none) :
    (∃ p cell, (newMem E w).1.1 = some p ∧ (newMem E w).2.tables[p]? = some cell ∧
      cell.cmp = E.cmp (newMem E w).2.s ∧
      cell.capacity =
        toPercent (E.getWriteBuffer (newMem E w).2.s) E.kWriteBufferPercent ∧
      (E.getWriteBuffer (newMem E w).2.s = 65536 → E.kWriteBufferPercent = 50 →
        cell.capacity = 32768)) ∧
    (newMem E w).2.trace.getLast? =
      some (Event.memdbNew (E.cmp (newMem E w).2.s)
        (toPercent (E.getWriteBuffer (newMem E w).2.s) E.kWriteBufferPercent)) := by
  rw [newMem_err_eq_created] at hok
  rw [newMem_of_created_none E w hok]
  refine ⟨⟨w.tables.length, freshTable E (created E w).2, rfl, by simp [freshTable], rfl, rfl,
    ?_⟩, List.getLast?_concat _⟩
  intro hwb hpct
  simp only [freshTable, hwb, hpct]
  rfl

/-- C12 at the test state: write buffer 64KB, percentage 50, capacity 32KB. -/
theorem newMem_table_capacity_witness :
    (newMem (testEnv fun _ => false) testWorld).1.2 = none ∧
    ((∃ p cell, (newMem (testEnv fun _ => false) testWorld).1.1 = some p ∧
      (newMem (testEnv fun _ => false) testWorld).2.tables[p]? = some cell ∧
      cell.cmp = (testEnv fun _ => false).cmp (newMem (testEnv fun _ => false) testWorld).2.s ∧
      cell.capacity =
        toPercent
          ((testEnv fun _ => false).getWriteBuffer
            (newMem (testEnv fun _ => false) testWorld).2.s)
          (testEnv fun _ => false).kWriteBufferPercent ∧
      ((testEnv fun _ => false).getWriteBuffer
          (newMem (testEnv fun _ => false) testWorld).2.s = 65536 →
        (testEnv fun _ => false).kWriteBufferPercent = 50 →
        cell.capacity = 32768)) ∧
    (newMem (testEnv fun _ => false) testWorld).2.trace.getLast? =
      some (Event.memdbNew
        ((testEnv fun _ => false).cmp (newMem (testEnv fun _ => false) testWorld).2.s)
        (toPercent
          ((testEnv fun _ => false).getWriteBuffer
            (newMem (testEnv fun _ => false) testWorld).2.s)
          (testEnv fun _ => false).kWriteBufferPercent))) ∧
    (newMem (testEnv fun _ => false) testWorld).2.tables[1]? =
      some { cmp := 0, capacity := 32768, entries := [] } :=
  ⟨rfl, newMem_table_capacity (testEnv fun _ => false) testWorld rfl, rfl⟩

/-! ## Rotating while a frozen table is pending -/

/-- The two generations never alias: `Distinct` survives every operation on a state whose
pointers are allocated. -/
theorem distinct_step {σ : Type} (E : Env σ) (o : Op) (w w1 : World σ)
    (hstep : step E o w = some w1) (hv : Valid w) (hd : Distinct w) : Distinct w1 := by
  obtain ⟨hm, _, hj, hfj⟩ := hv
  cases o with
  | newMem =>
    simp only [step, Option.some.injEq] at hstep
    subst hstep
    cases hc : (created E w).1 with
    | some e => rw [newMem_of_created_some E w e hc]; exact hd
    | none =>
      rw [newMem_of_created_none E w hc]
      refine ⟨?_, ?_⟩
      · intro p hp heq
        simp only [Option.some.injEq] at heq
        subst heq
        exact Nat.lt_irrefl _ (hm _ hp)
      · intro j hj1 heq
        simp only [Option.some.injEq] at heq
        subst heq
        cases hcur : w.d.journal with
        | none =>
          simp only [hcur] at hj1
          exact Nat.lt_irrefl _ (hfj _ hj1)
        | some c =>
          simp only [hcur, Option.some.injEq] at hj1
          subst hj1
          exact Nat.lt_irrefl _ (hj _ hcur)
  | dropFrozenMem =>
    simp only [step, dropFrozenMem, journalWriter.remove] at hstep
    cases hcur : w.d.frozenJournal with
    | none => simp [hcur] at hstep
    | some fj =>
      simp only [hcur, Option.some.injEq] at hstep
      subst hstep
      exact ⟨by simp, by simp⟩
  | addSeq delta =>
    simp only [step, addSeq, Option.some.injEq] at hstep
    subst hstep
    exact hd
  | setClosed =>
    simp only [step, setClosed, Option.some.injEq] at hstep
    subst hstep
    split <;> exact hd
  | getSeq | getMemNB | getMem | hasFrozenMem | getFrozenMem | isClosed | ok =>
    simp only [step, Option.some.injEq] at hstep
    subst hstep
    exact hd

/-- C14: `newMem()` has no check for a pending frozen table.  With `mem`, `journal`,
`frozenMem` and `frozenJournal` all present, a `newMem()` that returns a nil error stores
the old `mem` in `d.frozenMem` and the old `journal` in `d.frozenJournal`, and makes no
`remove()` call.  The table and the journal that were pending, being allocated objects
other than the old `mem` and `journal`, are then held by no field of `d`. -/
theorem newMem_overwrites_frozen {σ : Type} (E : Env σ) (w : World σ) (m fm j fj : Nat)
    (hmem : w.d.mem = some m) (hjournal : w.d.journal = some j)
    (hfm : w.d.frozenMem = some fm) (hfj : w.d.frozenJournal = some fj)
    (hok : (newMem E w).1.2 = none) :
    (newMem E w).2.d.frozenMem = some m ∧
    (newMem E w).2.d.frozenJournal = some j ∧
    removes (newMem E w).2.trace = removes w.trace ∧
    (fm ≠ m → fm < w.tables.length →
      (newMem E w).2.d.mem ≠ w.d.frozenMem ∧ (newMem E w).2.d.frozenMem ≠ w.d.frozenMem) ∧
    (fj ≠ j → fj < w.journals.length →
      (newMem E w).2.d.journal ≠ w.d.frozenJournal ∧
      (newMem E w).2.d.frozenJournal ≠ w.d.frozenJournal) := by
  refine ⟨?_, ?_, newMem_removes E w, ?_, ?_⟩
  · rw [newMem_err_eq_created] at hok
    rw [newMem_of_created_none E w hok]
    exact hmem
  · rw [newMem_err_eq_created] at hok
    rw [newMem_of_created_none E w hok]
    simp [hjournal]
  · intro hne hlt
    rw [newMem_err_eq_created] at hok
    rw [newMem_of_created_none E w hok]
    simp only [hfm, hmem, ne_eq, Option.some.injEq]
    exact ⟨fun h => Nat.lt_irrefl _ (h ▸ hlt), fun h => hne h.symm⟩
  · intro hne hlt
    rw [newMem_err_eq_created] at hok
    rw [newMem_of_created_none E w hok]
    simp only [hfj, hjournal, ne_eq, Option.some.injEq]
    exact ⟨fun h => Nat.lt_irrefl _ (h ▸ hlt), fun h => hne h.symm⟩

/-- C14 on a concrete state: after one rotation of the test state table 0 and journal 0
are pending; a second rotation leaves table 1 and journal 1 frozen, table 2 and journal 2
current, and no `remove()` call in the trace. -/
theorem newMem_overwrites_frozen_witness :
    (newMem (testEnv fun _ => false) testWorld).2.d.mem = some 1 ∧
    (newMem (testEnv fun _ => false) testWorld).2.d.journal = some 1 ∧
    (newMem (testEnv fun _ => false) testWorld).2.d.frozenMem = some 0 ∧
    (newMem (testEnv fun _ => false) testWorld).2.d.frozenJournal = some 0 ∧
    (newMem (testEnv fun _ => false) (newMem (testEnv fun _ => false) testWorld).2).1.2
      = none ∧
    ((newMem (testEnv fun _ => false)
        (newMem (testEnv fun _ => false) testWorld).2).2.d.frozenMem = some 1 ∧
    (newMem (testEnv fun _ => false)
        (newMem (testEnv fun _ => false) testWorld).2).2.d.frozenJournal = some 1 ∧
    removes (newMem (testEnv fun _ => false)
        (newMem (testEnv fun _ => false) testWorld).2).2.trace =
      removes (newMem (testEnv fun _ => false) testWorld).2.trace ∧
    (0 ≠ 1 → 0 < (newMem (testEnv fun _ => false) testWorld).2.tables.length →
      (newMem (testEnv fun _ => false)
          (newMem (testEnv fun _ => false) testWorld).2).2.d.mem ≠
        (newMem (testEnv fun _ => false) testWorld).2.d.frozenMem ∧
      (newMem (testEnv fun _ => false)
          (newMem (testEnv fun _ => false) testWorld).2).2.d.frozenMem ≠
        (newMem (testEnv fun _ => false) testWorld).2.d.frozenMem) ∧
    (0 ≠ 1 → 0 < (newMem (testEnv fun _ => false) testWorld).2.journals.length →
      (newMem (testEnv fun _ => false)
          (newMem (testEnv fun _ => false) testWorld).2).2.d.journal ≠
        (newMem (testEnv fun _ => false) testWorld).2.d.frozenJournal ∧
      (newMem (testEnv fun _ => false)
          (newMem (testEnv fun _ => false) testWorld).2).2.d.frozenJournal ≠
        (newMem (testEnv fun _ => false) testWorld).2.d.frozenJournal)) ∧
    (0 ≠ 1 ∧ 0 < (newMem (testEnv fun _ => false) testWorld).2.tables.length ∧
      0 < (newMem (testEnv fun _ => false) testWorld).2.journals.length) ∧
    removes (newMem (testEnv fun _ => false)
        (newMem (testEnv fun _ => false) testWorld).2).2.trace = [] :=
  ⟨rfl, rfl, rfl, rfl, rfl,
    newMem_overwrites_frozen (testEnv fun _ => false)
      (newMem (testEnv fun _ => false) testWorld).2 1 0 1 0 rfl rfl rfl rfl rfl,
    ⟨by decide, by decide, by decide⟩, rfl⟩

/-! ## `dropFrozenMem` never meets a nil frozen journal -/

/-- C15: start with `mem` and `journal` present and nothing frozen; in every state
reached by operations that respect the caller discipline, whenever `hasFrozenMem()` is
true `d.frozenJournal` is non-nil, so `dropFrozenMem()` calls `remove()` on a non-nil
journal and returns. -/
theorem dropFrozenMem_journal_present {σ : Type} (E : Env σ) (w0 w : World σ)
    (hmem : w0.d.mem ≠ none) (hjournal : w0.d.journal ≠ none)
    (hfm : w0.d.frozenMem = none) (hfj : w0.d.frozenJournal = none)
    (hreach : Reachable E w0 w) (hfrozen : hasFrozenMem w = true) :
    w.d.frozenJournal ≠ none ∧
    ∃ fj w1, w.d.frozenJournal = some fj ∧ dropFrozenMem w = some w1 ∧
      w1.trace = w.trace ++ [Event.remove fj] := by
  have key : w.d.mem ≠ none ∧ w.d.journal ≠ none ∧
      (w.d.frozenMem ≠ none ↔ w.d.frozenJournal ≠ none) := by
    clear hfrozen
    induction hreach with
    | init => exact ⟨hmem, hjournal, by simp [hfm, hfj]⟩
    | next o u u1 _ _ hstep ih => exact paired_step E o u u1 hstep ih
  have hne : w.d.frozenJournal ≠ none := by
    apply key.2.2.mp
    simpa [hasFrozenMem] using hfrozen
  obtain ⟨fj, hfj1⟩ := Option.ne_none_iff_exists'.mp hne
  refine ⟨hne, fj,
    { w with
      trace := w.trace ++ [Event.remove fj]
      d := { w.d with frozenJournal := none, frozenMem := none } },
    hfj1, ?_, rfl⟩
  simp [dropFrozenMem, journalWriter.remove, hfj1]

/-- C15 on a concrete run: after a rotation of the test state the frozen journal is
journal 0 and `dropFrozenMem()` removes it. -/
theorem dropFrozenMem_journal_present_witness :
    testWorld.d.mem ≠ none ∧ testWorld.d.journal ≠ none ∧
    testWorld.d.frozenMem = none ∧ testWorld.d.frozenJournal = none ∧
    Reachable (testEnv fun _ => false) testWorld
      (newMem (testEnv fun _ => false) testWorld).2 ∧
    hasFrozenMem (newMem (testEnv fun _ => false) testWorld).2 = true ∧
    ((newMem (testEnv fun _ => false) testWorld).2.d.frozenJournal ≠ none ∧
    ∃ fj w1, (newMem (testEnv fun _ => false) testWorld).2.d.frozenJournal = some fj ∧
      dropFrozenMem (newMem (testEnv fun _ => false) testWorld).2 = some w1 ∧
      w1.trace = (newMem (testEnv fun _ => false) testWorld).2.trace ++ [Event.remove fj]) :=
  have hr : Reachable (testEnv fun _ => false) testWorld
      (newMem (testEnv fun _ => false) testWorld).2 :=
    Reachable.next Op.newMem testWorld _ Reachable.init rfl rfl
  ⟨by decide, by decide, rfl, rfl, hr, rfl,
    dropFrozenMem_journal_present (testEnv fun _ => false) testWorld _
      (by decide) (by decide) rfl rfl hr rfl⟩

/-! ## The boundary never runs ahead of the counter -/

theorem newMem_frozenSeq {σ : Type} (E : Env σ) (w : World σ) :
    (newMem E w).2.d.seq = w.d.seq ∧
    ((newMem E w).2.d.frozenSeq = w.d.frozenSeq ∨
      ((newMem E w).1.2 = none ∧ (newMem E w).2.d.frozenSeq = w.d.seq)) := by
  cases hc : (created E w).1 with
  | some e =>
    rw [newMem_of_created_some E w e hc]
    exact ⟨rfl, Or.inl rfl⟩
  | none =>
    rw [newMem_of_created_none E w hc]
    exact ⟨rfl, Or.inr ⟨rfl, rfl⟩⟩

theorem step_frozenSeq {σ : Type} (E : Env σ) (o : Op) (w w1 : World σ)
    (hstep : step E o w = some w1) (hne : w1.d.frozenSeq ≠ w.d.frozenSeq) :
    o = Op.newMem ∧ (newMem E w).1.2 = none := by
  cases o with
  | newMem =>
    simp only [step, Option.some.injEq] at hstep
    subst hstep
    rcases (newMem_frozenSeq E w).2 with h | h
    · exact absurd h hne
    · exact ⟨rfl, h.1⟩
  | dropFrozenMem =>
    exact absurd (step_dropFrozenMem_frozenSeq E w w1 hstep) hne
  | addSeq delta =>
    simp only [step, addSeq, Option.some.injEq] at hstep
    subst hstep
    exact absurd rfl hne
  | setClosed =>
    simp only [step, setClosed, Option.some.injEq] at hstep
    subst hstep
    exact absurd (by split <;> rfl) hne
  | getSeq | getMemNB | getMem | hasFrozenMem | getFrozenMem | isClosed | ok =>
    simp only [step, Option.some.injEq] at hstep
    subst hstep
    exact absurd rfl hne

theorem step_frozenSeq_le {σ : Type} (E : Env σ) (o : Op) (w w1 : World σ)
    (hstep : step E o w = some w1)
    (hfit : ∀ delta, o = Op.addSeq delta → w.d.seq + delta < u64)
    (hle : w.d.frozenSeq ≤ w.d.seq) : w1.d.frozenSeq ≤ w1.d.seq := by
  cases o with
  | newMem =>
    simp only [step, Option.some.injEq] at hstep
    subst hstep
    obtain ⟨hs, hf⟩ := newMem_frozenSeq E w
    rcases hf with h | h
    · rw [hs, h]; exact hle
    · rw [hs, h.2]
  | dropFrozenMem =>
    simp only [step, dropFrozenMem, journalWriter.remove] at hstep
    cases hfj : w.d.frozenJournal with
    | none => simp [hfj] at hstep
    | some fj =>
      simp only [hfj, Option.some.injEq] at hstep
      subst hstep
      exact hle
  | addSeq delta =>
    simp only [step, addSeq, Option.some.injEq] at hstep
    subst hstep
    have h := hfit delta rfl
    show w.d.frozenSeq ≤ (w.d.seq + delta) % u64
    rw [Nat.mod_eq_of_lt h]
    exact Nat.le_trans hle (Nat.le_add_right _ _)
  | setClosed =>
    simp only [step, setClosed, Option.some.injEq] at hstep
    subst hstep
    split <;> exact hle
  | getSeq | getMemNB | getMem | hasFrozenMem | getFrozenMem | isClosed | ok =>
    simp only [step, Option.some.injEq] at hstep
    subst hstep
    exact hle

/-- C17: from a state with `frozenSeq <= seq`, after any operations during which no
`addSeq` takes `seq` past 2^64 - 1, `d.frozenSeq <= getSeq()`.  `addSeq` never changes
`d.frozenSeq`, and an operation that changes it is a `newMem()` returning a nil error. -/
theorem frozenSeq_le_getSeq {σ : Type} (E : Env σ) (ops : List Op) (w0 w : World σ)
    (hinit : w0.d.frozenSeq ≤ w0.d.seq)
    (hfits : seqFits E ops w0 = true) (hrun : run E ops w0 = some w) :
    w.d.frozenSeq ≤ getSeq w ∧
    (∀ (delta : Nat) (u : World σ), (addSeq delta u).d.frozenSeq = u.d.frozenSeq) ∧
    (∀ (o : Op) (u u1 : World σ), step E o u = some u1 →
      u1.d.frozenSeq ≠ u.d.frozenSeq → o = Op.newMem ∧ (newMem E u).1.2 = none) := by
  refine ⟨?_, fun _ _ => rfl, fun o u u1 => step_frozenSeq E o u u1⟩
  induction ops generalizing w0 with
  | nil =>
    simp only [run, Option.some.injEq] at hrun
    subst hrun
    exact hinit
  | cons o os ih =>
    simp only [run] at hrun
    simp only [seqFits, Bool.and_eq_true] at hfits
    cases hs : step E o w0 with
    | none => simp [hs] at hrun
    | some u =>
      simp only [hs] at hrun hfits
      refine ih u (step_frozenSeq_le E o w0 u hs ?_ hinit) hfits.2 hrun
      intro delta ho
      subst ho
      simpa using hfits.1

/-- C17 on a concrete run: rotate, advance by 3, release, advance by 5. -/
theorem frozenSeq_le_getSeq_witness :
    testWorld.d.frozenSeq ≤ testWorld.d.seq ∧
    seqFits (testEnv fun _ => false)
      [Op.newMem, Op.addSeq 3, Op.dropFrozenMem, Op.addSeq 5] testWorld = true ∧
    ∃ w, run (testEnv fun _ => false)
        [Op.newMem, Op.addSeq 3, Op.dropFrozenMem, Op.addSeq 5] testWorld = some w ∧
      w.d.frozenSeq = 7 ∧ getSeq w = 15 ∧
      (w.d.frozenSeq ≤ getSeq w ∧
      (∀ (delta : Nat) (u : World Nat), (addSeq delta u).d.frozenSeq = u.d.frozenSeq) ∧
      (∀ (o : Op) (u u1 : World Nat), step (testEnv fun _ => false) o u = some u1 →
        u1.d.frozenSeq ≠ u.d.frozenSeq →
        o = Op.newMem ∧ (newMem (testEnv fun _ => false) u).1.2 = none)) :=
  ⟨by decide, by decide, _, rfl, rfl, rfl,
    frozenSeq_le_getSeq (testEnv fun _ => false)
      [Op.newMem, Op.addSeq 3, Op.dropFrozenMem, Op.addSeq 5] testWorld _
      (by decide) (by decide) rfl⟩

/-! ## Accessors -/

/-- C18: `getMem()` and `getMemNB()` return the same pair `(d.mem, d.frozenMem)`,
`getFrozenMem()` returns its second component, `hasFrozenMem()` is true exactly when that
component is non-nil, and the state after each of the four accessors is the state
before. -/
theorem accessors_agree {σ : Type} (E : Env σ) (w : World σ) :
    getMem w = getMemNB w ∧
    getMem w = (w.d.mem, w.d.frozenMem) ∧
    getFrozenMem w = (getMem w).2 ∧
    (hasFrozenMem w = true ↔ (getMem w).2 ≠ none) ∧
    step E Op.getMem w = some w ∧
    step E Op.getMemNB w = some w ∧
    step E Op.getFrozenMem w = some w ∧
    step E Op.hasFrozenMem w = some w := by
  refine ⟨rfl, rfl, rfl, ?_, rfl, rfl, rfl, rfl⟩
  simp [hasFrozenMem, getMem]

/-! ## The life of a journal -/

theorem step_frame {σ : Type} (E : Env σ) (o : Op) (w w1 : World σ)
    (hn : o ≠ Op.newMem) (hd : o ≠ Op.dropFrozenMem) (hstep : step E o w = some w1) :
    w1.d.mem = w.d.mem ∧ w1.d.frozenMem = w.d.frozenMem ∧
    w1.d.journal = w.d.journal ∧ w1.d.frozenJournal = w.d.frozenJournal ∧
    w1.tables = w.tables ∧ w1.journals = w.journals ∧ w1.trace = w.trace := by
  cases o with
  | newMem => exact absurd rfl hn
  | dropFrozenMem => exact absurd rfl hd
  | addSeq delta =>
    simp only [step, addSeq, Option.some.injEq] at hstep
    subst hstep
    exact ⟨rfl, rfl, rfl, rfl, rfl, rfl, rfl⟩
  | setClosed =>
    simp only [step, setClosed, Option.some.injEq] at hstep
    subst hstep
    split <;> exact ⟨rfl, rfl, rfl, rfl, rfl, rfl, rfl⟩
  | getSeq | getMemNB | getMem | hasFrozenMem | getFrozenMem | isClosed | ok =>
    simp only [step, Option.some.injEq] at hstep
    subst hstep
    exact ⟨rfl, rfl, rfl, rfl, rfl, rfl, rfl⟩

theorem dropFrozenMem_eq {σ : Type} (w w1 : World σ) (h : dropFrozenMem w = some w1) :
    ∃ fj : Nat, w.d.frozenJournal = some fj ∧
      w1.d.journal = w.d.journal ∧ w1.d.frozenJournal = none ∧
      w1.journals = w.journals ∧ removes w1.trace = removes w.trace ++ [fj] := by
  simp only [dropFrozenMem, journalWriter.remove] at h
  cases hfj : w.d.frozenJournal with
  | none => simp [hfj] at h
  | some fj =>
    simp only [hfj, Option.some.injEq] at h
    subst h
    exact ⟨fj, rfl, rfl, rfl, rfl, by simp [removes_append, removes]⟩

theorem newMem_journals {σ : Type} (E : Env σ) (w : World σ) (c : Nat)
    (hc : w.d.journal = some c) :
    removes (newMem E w).2.trace = removes w.trace ∧
    (((newMem E w).2.d.journal = w.d.journal ∧
        (newMem E w).2.d.frozenJournal = w.d.frozenJournal ∧
        (newMem E w).2.journals = w.journals) ∨
      ((newMem E w).2.d.journal = some w.journals.length ∧
        (newMem E w).2.d.frozenJournal = some c ∧
        (newMem E w).2.journals.length = w.journals.length + 1)) := by
  refine ⟨newMem_removes E w, ?_⟩
  cases h : (created E w).1 with
  | some e =>
    rw [newMem_of_created_some E w e h]
    exact Or.inl ⟨rfl, rfl, rfl⟩
  | none =>
    rw [newMem_of_created_none E w h]
    exact Or.inr ⟨rfl, by simp [hc], by simp⟩

theorem journalInv_step {σ : Type} (E : Env σ) (o : Op) (w w1 : World σ)
    (hstep : step E o w = some w1) (hinv : JournalInv w) : JournalInv w1 := by
  obtain ⟨hv, hp, hdis, hnd, hrem⟩ := hinv
  refine ⟨valid_step E o w w1 hstep hv, paired_step E o w w1 hstep hp, ?_⟩
  by_cases hn : o = Op.newMem
  · subst hn
    simp only [step, Option.some.injEq] at hstep
    subst hstep
    obtain ⟨c, hc⟩ := Option.ne_none_iff_exists'.mp hp.2.1
    have hclt : c < w.journals.length := hv.2.2.1 c hc
    obtain ⟨hr, hcase⟩ := newMem_journals E w c hc
    rw [hr]
    rcases hcase with ⟨hj, hfj, hjs⟩ | ⟨hj, hfj, hjs⟩
    · rw [hj, hfj, hjs]
      exact ⟨hdis, hnd, hrem⟩
    · rw [hj, hfj, hjs]
      refine ⟨?_, hnd, ?_⟩
      · intro j h1 h2
        simp only [Option.some.injEq] at h1 h2
        subst h1
        exact Nat.lt_irrefl _ (h2 ▸ hclt)
      · intro j hjr
        obtain ⟨h1, h2, _⟩ := hrem j hjr
        refine ⟨Nat.lt_succ_of_lt h1, ?_, ?_⟩
        · intro h
          simp only [Option.some.injEq] at h
          exact Nat.lt_irrefl _ (h ▸ h1)
        · rw [← hc]
          exact h2
  · by_cases hd : o = Op.dropFrozenMem
    · subst hd
      simp only [step] at hstep
      obtain ⟨fj, hfj, hj, hfj1, hjs, hr⟩ := dropFrozenMem_eq w w1 hstep
      rw [hj, hfj1, hjs, hr]
      refine ⟨by simp, ?_, ?_⟩
      · refine List.Nodup.append hnd (List.nodup_singleton fj) ?_
        intro a ha hb
        rw [List.mem_singleton] at hb
        subst hb
        exact (hrem a ha).2.2 hfj
      · intro j hjr
        rw [List.mem_append, List.mem_singleton] at hjr
        rcases hjr with h | h
        · obtain ⟨h1, h2, _⟩ := hrem j h
          exact ⟨h1, h2, by simp⟩
        · subst h
          exact ⟨hv.2.2.2 _ hfj, hdis _ hfj, by simp⟩
    · obtain ⟨_, _, hj, hfj, _, hjs, ht⟩ := step_frame E o w w1 hn hd hstep
      rw [hj, hfj, hjs, ht]
      exact ⟨hdis, hnd, hrem⟩

theorem tracked_step {σ : Type} (E : Env σ) (o : Op) (w w1 : World σ) (j : Nat)
    (hallowed : allowed o w = true) (hstep : step E o w = some w1)
    (hinv : JournalInv w) (hlt : j < w.journals.length) (ht : Tracked j w) :
    Tracked j w1 := by
  obtain ⟨hv, hp, hdis, hnd, hrem⟩ := hinv
  by_cases hn : o = Op.newMem
  · subst hn
    simp only [step, Option.some.injEq] at hstep
    subst hstep
    obtain ⟨c, hc⟩ := Option.ne_none_iff_exists'.mp hp.2.1
    have hnofm : w.d.frozenMem = none := by
      simpa [allowed, hasFrozenMem] using hallowed
    have hnofj : w.d.frozenJournal = none := by
      by_contra h
      exact (hp.2.2.mpr h) hnofm
    obtain ⟨hr, hcase⟩ := newMem_journals E w c hc
    unfold Tracked at ht ⊢
    rw [hr]
    rcases hcase with ⟨hj, hfj, _⟩ | ⟨hj, hfj, _⟩
    · rw [hj, hfj]
      exact ht
    · rw [hj, hfj]
      have hfresh : some w.journals.length ≠ some j := by
        intro h
        simp only [Option.some.injEq] at h
        exact Nat.lt_irrefl _ (h ▸ hlt)
      rcases ht with ⟨h1, _, h3⟩ | ⟨_, h2, _⟩ | ⟨h1, _, h3⟩
      · exact Or.inr (Or.inl ⟨hfresh, by rw [← hc]; exact h1, h3⟩)
      · rw [hnofj] at h2
        exact absurd h2 (by simp)
      · exact Or.inr (Or.inr ⟨hfresh, by rw [← hc]; exact h1, h3⟩)
  · by_cases hd : o = Op.dropFrozenMem
    · subst hd
      simp only [step] at hstep
      obtain ⟨fj, hfj, hj, hfj1, _, hr⟩ := dropFrozenMem_eq w w1 hstep
      unfold Tracked at ht ⊢
      rw [hj, hfj1, hr]
      rcases ht with ⟨h1, h2, h3⟩ | ⟨h1, h2, _⟩ | ⟨h1, _, h3⟩
      · refine Or.inl ⟨h1, by simp, ?_⟩
        intro hmem
        rw [List.mem_append, List.mem_singleton] at hmem
        rcases hmem with h | h
        · exact h3 h
        · subst h
          exact h2 hfj
      · refine Or.inr (Or.inr ⟨h1, by simp, ?_⟩)
        rw [hfj] at h2
        simp only [Option.some.injEq] at h2
        subst h2
        simp
      · exact Or.inr (Or.inr ⟨h1, by simp, by simp [h3]⟩)
    · obtain ⟨_, _, hj, hfj, _, _, htr⟩ := step_frame E o w w1 hn hd hstep
      unfold Tracked at ht ⊢
      rw [hj, hfj, htr]
      exact ht

theorem step_journals_length {σ : Type} (E : Env σ) (o : Op) (w w1 : World σ)
    (hstep : step E o w = some w1) (hinv : JournalInv w) :
    w.journals.length ≤ w1.journals.length := by
  by_cases hn : o = Op.newMem
  · subst hn
    simp only [step, Option.some.injEq] at hstep
    subst hstep
    obtain ⟨c, hc⟩ := Option.ne_none_iff_exists'.mp hinv.2.1.2.1
    rcases (newMem_journals E w c hc).2 with ⟨_, _, h⟩ | ⟨_, _, h⟩
    · rw [h]
    · rw [h]
      exact Nat.le_succ _
  · by_cases hd : o = Op.dropFrozenMem
    · subst hd
      simp only [step] at hstep
      obtain ⟨_, _, _, _, h, _⟩ := dropFrozenMem_eq w w1 hstep
      rw [h]
    · rw [(step_frame E o w w1 hn hd hstep).2.2.2.2.2.1]

theorem journalInv_of_initial {σ : Type} (w : World σ) (h : Initial w) : JournalInv w := by
  obtain ⟨hm, hj, hfm, hfj, hv, hr⟩ := h
  refine ⟨hv, ⟨hm, hj, by simp [hfm, hfj]⟩, ?_, ?_, ?_⟩
  · intro j h1
    rw [hfj] at h1
    exact absurd h1 (by simp)
  · rw [hr]
    exact List.nodup_nil
  · intro j h1
    rw [hr] at h1
    exact absurd h1 (List.not_mem_nil j)

theorem journalInv_reachable {σ : Type} (E : Env σ) (w w1 : World σ)
    (hinv : JournalInv w) (hreach : Reachable E w w1) : JournalInv w1 := by
  induction hreach with
  | init => exact hinv
  | next o u u1 _ _ hstep ih => exact journalInv_step E o u u1 hstep ih

theorem tracked_reachable {σ : Type} (E : Env σ) (w w1 : World σ) (j : Nat)
    (hinv : JournalInv w) (hj : w.d.journal = some j) (hreach : Reachable E w w1) :
    Tracked j w1 ∧ j < w1.journals.length := by
  induction hreach with
  | init =>
    refine ⟨Or.inl ⟨hj, fun h => hinv.2.2.1 j h hj, fun h => (hinv.2.2.2.2 j h).2.1 hj⟩, ?_⟩
    exact hinv.1.2.2.1 j hj
  | next o u u1 hu hallowed hstep ih =>
    have hinvu := journalInv_reachable E w u hinv hu
    exact ⟨tracked_step E o u u1 j hallowed hstep hinvu ih.2 ih.1,
      Nat.lt_of_lt_of_le ih.2 (step_journals_length E o u u1 hstep hinvu)⟩

/-- C16: start from a well-formed initial state and respect the caller discipline.  A
journal that is `d.journal` in some reached state `w` is, in every state `w1` reached
from `w`, exactly one of the current journal, the frozen journal, or a journal on which
`remove()` has been called.  No journal appears twice among the `remove()` calls, the
current journal is never among them, and the journal a `dropFrozenMem()` removes is not
the current journal and has not been removed before. -/
theorem journal_lifecycle {σ : Type} (E : Env σ) (w0 w w1 : World σ)
    (hinit : Initial w0) (hreach : Reachable E w0 w) (hlater : Reachable E w w1) :
    (∀ j : Nat, w.d.journal = some j → Tracked j w1) ∧
    (removes w1.trace).Nodup ∧
    (∀ j : Nat, w1.d.journal = some j → j ∉ removes w1.trace) ∧
    (∀ w2 : World σ, dropFrozenMem w1 = some w2 →
      ∃ fj : Nat, removes w2.trace = removes w1.trace ++ [fj] ∧
        w1.d.journal ≠ some fj ∧ fj ∉ removes w1.trace) := by
  have hinvw := journalInv_reachable E w0 w (journalInv_of_initial w0 hinit) hreach
  have hinv1 := journalInv_reachable E w w1 hinvw hlater
  refine ⟨fun j hj => (tracked_reachable E w w1 j hinvw hj hlater).1, hinv1.2.2.2.1,
    fun j hj h => (hinv1.2.2.2.2 j h).2.1 hj, ?_⟩
  intro w2 hdrop
  obtain ⟨fj, hfj, _, _, _, hr⟩ := dropFrozenMem_eq w1 w2 hdrop
  exact ⟨fj, hr, hinv1.2.2.1 fj hfj, fun h => (hinv1.2.2.2.2 fj h).2.2 hfj⟩

/-- C16 on a concrete run: rotate the test state, release, rotate again.  Journal 0, the
first current journal, ends as the one removed journal; journal 2 is current. -/
theorem journal_lifecycle_witness :
    Initial testWorld ∧
    Reachable (testEnv fun _ => false) testWorld testWorld ∧
    ∃ w1, run (testEnv fun _ => false) [Op.newMem, Op.dropFrozenMem, Op.newMem] testWorld
        = some w1 ∧
      Reachable (testEnv fun _ => false) testWorld w1 ∧
      w1.d.journal = some 2 ∧ w1.d.frozenJournal = some 1 ∧ removes w1.trace = [0] ∧
      ((∀ j : Nat, testWorld.d.journal = some j → Tracked j w1) ∧
      (removes w1.trace).Nodup ∧
      (∀ j : Nat, w1.d.journal = some j → j ∉ removes w1.trace) ∧
      (∀ w2 : World Nat, dropFrozenMem w1 = some w2 →
        ∃ fj : Nat, removes w2.trace = removes w1.trace ++ [fj] ∧
          w1.d.journal ≠ some fj ∧ fj ∉ removes w1.trace)) :=
  have hi : Initial testWorld := by
    refine ⟨by decide, by decide, rfl, rfl, ⟨?_, ?_, ?_, ?_⟩, rfl⟩
    · intro p h
      cases h
      decide
    · intro p h
      cases h
    · intro j h
      cases h
      decide
    · intro j h
      cases h
  have h1 : Reachable (testEnv fun _ => false) testWorld
      (newMem (testEnv fun _ => false) testWorld).2 :=
    Reachable.next Op.newMem testWorld _ Reachable.init rfl rfl
  have h2 := Reachable.next Op.dropFrozenMem _ _ h1 rfl rfl
  have h3 := Reachable.next Op.newMem _ _ h2 rfl rfl
  ⟨hi, Reachable.init, _, rfl, h3, rfl, rfl, rfl,
    journal_lifecycle (testEnv fun _ => false) testWorld testWorld _ hi Reachable.init h3⟩

end Leveldb
